import Mathlib

set_option maxRecDepth 20000

/-!
# Shallow embedding of the `encrypt-config` cache core

This file embeds the concurrency/cache core of the `encrypt-config` crate
(`src/encrypt-config/src/config.rs`) in Lean 4 and proves the spec claims
about it.

Modelling decisions, traceable to the source:

* `CacheFlags` (config.rs lines 21-29) packs, into one `u8`:
  bit 0 `Valid`, bit 1 `Dirty`, bit 2 `Writing`, and bits 3..7 a 5-bit
  reader count whose unit is `Reading = 1 <<< 3 = 8`.  We model the flag
  word as a `Nat`; every atomic update the source performs on the `u8`
  is mirrored with an explicit `% 256` where Rust wrapping arithmetic
  could wrap (`fetch_add` / `fetch_sub`), and with `&&&` / `|||` for
  `fetch_and` / `fetch_or`.  Note that `enumflags2` complements within
  the universe of declared bits (`0b1111`), so `(!Dirty).bits() = 13`
  and `(!Writing).bits() = 11`.
* `CacheValue` (lines 31-41) is a type-erased boxed value plus the flag
  word; we model the erased box contents as a value of a parameter type
  `V` and the per-entry `write_back_fn` by an event recording that
  `T::save` was invoked with the entry's current value.
* `Cache` (lines 63-116) is a `HashMap<TypeId, CacheValue>`; we model it
  as an association list from an abstract key type `K` (the `TypeId`)
  to `CacheValue`, with `update` / `eraseKey` mirroring
  `entry().and_modify().or_insert` and `remove`.
* The external `Source` capability (spec section 6: `load_or_default`
  never fails, `save` returns a result) is a parameter `SourceModel`:
  `load_or_default : K → V` and `saveRes : K → V → Option Err` (`none`
  means `Ok(())`).  Side effects of the capability are recorded in an
  event log: `Event.load k` each time `T::load_or_default()` runs and
  `Event.save k v` each time `T::save` runs on value `v`.
* Panics (`panic!` in `retrieve`, `retrieve_mut`, `take_or_default`)
  become the `Outcome.panicked` constructor; state mutations that the
  source performs before the panic point are kept in the returned
  state, and values dropped during unwinding still run their `Drop`
  code (as in Rust), hence still emit their write-back events.
-/

namespace EncryptConfig

/-- Bit of `CacheFlags::Valid` (config.rs line 25). -/
def validBit : Nat := 1

/-- Bit of `CacheFlags::Dirty` (config.rs line 26). -/
def dirtyBit : Nat := 2

/-- Bit of `CacheFlags::Writing` (config.rs line 27). -/
def writingBit : Nat := 4

/-- Bit of `CacheFlags::Reading` (config.rs line 28), the unit of the
5-bit reader count stored in bits 3..7 of the flag word. -/
def readingBit : Nat := 8

/-- `(!CacheFlags::Writing).bits()`: enumflags2 complements inside the
universe `0b1111`, giving `0b1011 = 11`.  Used by `Drop for CfgMut`
(config.rs line 329). -/
def notWritingMask : Nat := 11

/-- `(!CacheFlags::Dirty).bits() = 0b1101 = 13`, used by
`CacheValue::write_back` (config.rs line 49). -/
def notDirtyMask : Nat := 13

/-- One cache entry: the type-erased boxed value and the atomic flag
word (`struct CacheValue`, config.rs lines 31-41).  The
`write_back_fn` captured at entry creation always calls `T::save` on
the boxed value, so it is represented by the event emitted when it
runs. -/
structure CacheValue (V : Type) where
  inner : V
  flags : Nat
deriving DecidableEq, Repr

/-- Side effects of the external `Source` capability observed by the
cache: `load k` records a call to `T::load_or_default()`, `save k v`
records a call of the write-back path or `Config::save` to `T::save`
on value `v`. -/
inductive Event (K V : Type) where
  | load (k : K)
  | save (k : K) (v : V)
deriving DecidableEq, Repr

/-- Result of an operation that may `panic!`. -/
inductive Outcome (α : Type) where
  | ok (val : α)
  | panicked (msg : String)
deriving DecidableEq, Repr

/-- `Outcome.panicked` recogniser. -/
def Outcome.isPanic {α : Type} : Outcome α → Bool
  | .ok _ => false
  | .panicked _ => true

/-- The cache map: association list from type key to entry, modelling
`HashMap<TypeId, CacheValue>` (config.rs line 65).  A well-formed map
has no duplicate keys. -/
abbrev CacheSt (K V : Type) := List (K × CacheValue V)

/-- The external `Source` capability of one process: for each type key,
what `T::load_or_default()` returns and whether `T::save` succeeds
(`none`) or fails with a typed error (`some e`). -/
structure SourceModel (K V Err : Type) where
  load_or_default : K → V
  saveRes : K → V → Option Err

variable {K V Err : Type} [DecidableEq K]

/-- Association-list lookup, modelling `HashMap::get`. -/
def lookupK (k : K) : CacheSt K V → Option (CacheValue V)
  | [] => none
  | (k', cv) :: t => if k' = k then some cv else lookupK k t

/-- Insert-or-replace, modelling `HashMap::entry(..).or_insert(..)` /
in-place modification. -/
def update (k : K) (cv : CacheValue V) : CacheSt K V → CacheSt K V
  | [] => [(k, cv)]
  | (k', cv') :: t => if k' = k then (k, cv) :: t else (k', cv') :: update k cv t

/-- Removal, modelling `HashMap::remove`. -/
def eraseKey (k : K) : CacheSt K V → CacheSt K V
  | [] => []
  | (k', cv') :: t => if k' = k then t else (k', cv') :: eraseKey k t

/-- Apply `f` to the entry at `k` (used for the atomic flag updates a
guard performs through its `&AtomicU8`). -/
def modifyEntry (k : K) (f : CacheValue V → CacheValue V) : CacheSt K V → CacheSt K V
  | [] => []
  | (k', cv') :: t => if k' = k then (k', f cv') :: t else (k', cv') :: modifyEntry k f t

/-- Keys are pairwise distinct, as in a `HashMap`. -/
def nodupKeys (s : CacheSt K V) : Prop := (s.map Prod.fst).Nodup

instance (s : CacheSt K V) : Decidable (nodupKeys s) :=
  inferInstanceAs (Decidable (s.map Prod.fst).Nodup)

/-- `Cache::get_or_default` (config.rs lines 72-96): on a miss insert a
fresh entry with value `T::load_or_default()` and flags `Valid`; if the
entry is present but invalid, reload it in place and or-in `Valid`; if
present and valid, return it untouched.  Returns the entry the source
function returns a reference to, the updated map, and the emitted
events. -/
def get_or_default (S : SourceModel K V Err) (k : K) (s : CacheSt K V) :
    CacheValue V × CacheSt K V × List (Event K V) :=
  match lookupK k s with
  | none =>
      let cv : CacheValue V := ⟨S.load_or_default k, validBit⟩
      (cv, update k cv s, [.load k])
  | some cv =>
      if cv.flags &&& validBit = 0 then
        let cv' : CacheValue V := ⟨S.load_or_default k, cv.flags ||| validBit⟩
        (cv', update k cv' s, [.load k])
      else
        (cv, s, [])

/-- `Cacheable::retrieve` (config.rs lines 362-378): `get_or_default`,
then panic if `Writing` is set, then `fetch_add(Reading)` (wrapping in
the `u8`) and panic if the previous flag word was `≥ 0b1111_1000`,
i.e. the 5-bit reader count was already 31; otherwise hand out a
`CfgRef` guard dereferencing to the entry's value. -/
def retrieve (S : SourceModel K V Err) (k : K) (s : CacheSt K V) :
    Outcome V × CacheSt K V × List (Event K V) :=
  let r := get_or_default S k s
  let cv := r.1
  if cv.flags &&& writingBit ≠ 0 then
    (.panicked "cannot get a shared ref while writing", r.2.1, r.2.2)
  else
    let s' := modifyEntry k (fun c => ⟨c.inner, (c.flags + readingBit) % 256⟩) r.2.1
    if cv.flags ≥ 248 then
      (.panicked "too many refs", s', r.2.2)
    else
      (.ok cv.inner, s', r.2.2)

/-- `Cacheable::retrieve_mut` (config.rs lines 380-398): `get_or_default`,
one atomic load of the flags, panic if `Writing` is set, panic if the
word is `≥ Reading = 8` (some reader outstanding), otherwise
`fetch_or(Writing)` and hand out a `CfgMut` guard. -/
def retrieve_mut (S : SourceModel K V Err) (k : K) (s : CacheSt K V) :
    Outcome V × CacheSt K V × List (Event K V) :=
  let r := get_or_default S k s
  let cv := r.1
  if cv.flags &&& writingBit ≠ 0 then
    (.panicked "cannot get a mut ref while writing", r.2.1, r.2.2)
  else if cv.flags ≥ readingBit then
    (.panicked "cannot get a mut ref while reading", r.2.1, r.2.2)
  else
    (.ok cv.inner, modifyEntry k (fun c => ⟨c.inner, c.flags ||| writingBit⟩) r.2.1, r.2.2)

/-- `Drop for CfgRef` (config.rs lines 280-288): `fetch_sub(Reading)`,
wrapping in the `u8`. -/
def dropRef (k : K) (s : CacheSt K V) : CacheSt K V :=
  modifyEntry k (fun c => ⟨c.inner, (c.flags + 256 - readingBit) % 256⟩) s

/-- `Drop for CfgMut` (config.rs lines 323-331):
`fetch_and((!Writing).bits())`, i.e. `&&& 0b1011`. -/
def dropMut (k : K) (s : CacheSt K V) : CacheSt K V :=
  modifyEntry k (fun c => ⟨c.inner, c.flags &&& notWritingMask⟩) s

/-- A mutation through the exclusive guard: `DerefMut for CfgMut`
(config.rs lines 312-321) performs `fetch_or(Dirty)` and returns
`&mut T`, through which the caller stores `v`.  `Deref` (immutable,
lines 301-310) touches no state and needs no model operation. -/
def writeThrough (k : K) (v : V) (s : CacheSt K V) : CacheSt K V :=
  modifyEntry k (fun c => ⟨v, c.flags ||| dirtyBit⟩) s

/-- Events emitted when a `CacheValue` is dropped (`impl Drop for
CacheValue`, config.rs lines 53-61): if `flags & (Dirty|Valid)` equals
`Dirty|Valid`, `write_back` runs, which calls the captured
`write_back_fn`, i.e. `T::save` on the boxed value (line 91). -/
def dropEvents (k : K) (cv : CacheValue V) : List (Event K V) :=
  if cv.flags &&& (dirtyBit ||| validBit) = dirtyBit ||| validBit then
    [.save k cv.inner]
  else
    []

/-- `Cache::take_or_default` (config.rs lines 98-115): `remove` the
entry.  If one was present and `Valid`: panic if `Writing`, else
`transmute_copy` the value out; in both cases the removed `CacheValue`
is dropped at the end of the match arm, running `Drop for CacheValue`
(hence write-back when `Dirty|Valid`).  If absent, or present but
invalid, the result is `T::load_or_default()` (an invalid removed
entry is also dropped, but its `Valid` bit is clear so no write-back
fires). -/
def take_or_default (S : SourceModel K V Err) (k : K) (s : CacheSt K V) :
    Outcome V × CacheSt K V × List (Event K V) :=
  match lookupK k s with
  | none => (.ok (S.load_or_default k), s, [.load k])
  | some cv =>
      let s' := eraseKey k s
      if cv.flags &&& validBit ≠ 0 then
        if cv.flags &&& writingBit ≠ 0 then
          (.panicked "cannot take while writing", s', dropEvents k cv)
        else
          (.ok cv.inner, s', dropEvents k cv)
      else
        (.ok (S.load_or_default k), s', [.load k] ++ dropEvents k cv)

/-- `Config::save` (config.rs lines 234-255): if an entry for the type
exists, overwrite its boxed value in place (`ptr.write`) and
`fetch_or(Dirty)` — no flag check, no `T::save` call, returns `Ok`.
If absent, call `value.save()` and propagate its error with `?`; on
success run `T::retrieve(&self.cache)` whose temporary `CfgRef` is
immediately dropped (`fetch_sub(Reading)`). -/
def saveOp (S : SourceModel K V Err) (k : K) (v : V) (s : CacheSt K V) :
    Except Err Unit × CacheSt K V × List (Event K V) :=
  match lookupK k s with
  | some _ =>
      (.ok (), modifyEntry k (fun c => ⟨v, c.flags ||| dirtyBit⟩) s, [])
  | none =>
      match S.saveRes k v with
      | some e => (.error e, s, [.save k v])
      | none =>
          let r := retrieve S k s
          (.ok (), dropRef k r.2.1, [.save k v] ++ r.2.2)

/-- Dropping the whole `Config` drops the `Cache`, hence the `HashMap`,
hence every remaining `CacheValue`: each dirty-and-valid entry emits
one write-back (`T::save`) event. -/
def teardownEvents (s : CacheSt K V) : List (Event K V) :=
  s.foldr (fun p acc => dropEvents p.1 p.2 ++ acc) []

/-- The values passed to `T::save` for key `k` within an event list. -/
def savesAt (k : K) (evs : List (Event K V)) : List V :=
  evs.filterMap (fun e =>
    match e with
    | .save k' v => if k' = k then some v else none
    | .load _ => none)

/-- The keys whose `T::load_or_default()` ran, in order. -/
def loadsAt (k : K) (evs : List (Event K V)) : Nat :=
  (evs.filter (fun e =>
    match e with
    | .load k' => decide (k' = k)
    | .save _ _ => false)).length

/-!
## Interleaving model of guard acquisition

`retrieve` and `retrieve_mut` (config.rs lines 362-398) coordinate
threads through individual atomic operations on one entry's `AtomicU8`
flag word; only each single atomic access is indivisible, so a faithful
interleaving model lets the scheduler switch threads between the load
that checks the flags and the read-modify-write that claims them.  A
thread acquiring a guard on an already-present, valid entry performs:

* shared (`retrieve`): (1) `load`; panic if `Writing` set;
  (2) `fetch_add(Reading)`; panic if the previous word was ≥ 248;
  then the guard is outstanding.  (`get_or_default` on a present valid
  entry only loads the flags and writes nothing, so it adds no step.)
* exclusive (`retrieve_mut`): (1) `load`; panic if `Writing` set or the
  word is ≥ 8; (2) `fetch_or(Writing)`; then the guard is outstanding.
-/

/-- Which acquisition a thread is running: shared `retrieve` or
exclusive `retrieve_mut`. -/
inductive Acq where
  | rd
  | wr
deriving DecidableEq, Repr

/-- Program counter of an acquiring thread: before the checking load,
after it, holding the guard, or panicked. -/
inductive Pc where
  | start
  | passed
  | holding
  | panicked
deriving DecidableEq, Repr

/-- One thread: its acquisition kind and program counter. -/
structure Thread where
  acq : Acq
  pc : Pc
deriving DecidableEq, Repr

/-- Shared flag word plus the per-thread program counters. -/
structure RaceState where
  flags : Nat
  threads : List Thread
deriving DecidableEq, Repr

/-- One atomic micro-step of a thread at program counter `pc` running
acquisition `a` against flag word `f`; returns the new counter and
word.  Each case is one atomic access of config.rs lines 362-398. -/
def microStep (a : Acq) (pc : Pc) (f : Nat) : Pc × Nat :=
  match a, pc with
  | .rd, .start => if f &&& writingBit ≠ 0 then (.panicked, f) else (.passed, f)
  | .rd, .passed =>
      if f ≥ 248 then (.panicked, (f + readingBit) % 256)
      else (.holding, (f + readingBit) % 256)
  | .wr, .start =>
      if f &&& writingBit ≠ 0 then (.panicked, f)
      else if f ≥ readingBit then (.panicked, f)
      else (.passed, f)
  | .wr, .passed => (.holding, f ||| writingBit)
  | _, .holding => (.holding, f)
  | _, .panicked => (.panicked, f)

/-- Let thread `i` take one micro-step. -/
def schedStep (s : RaceState) (i : Nat) : RaceState :=
  match s.threads.get? i with
  | none => s
  | some t =>
      let r := microStep t.acq t.pc s.flags
      ⟨r.2, s.threads.set i ⟨t.acq, r.1⟩⟩

/-- Run a schedule (a list of thread indices). -/
def runSched (sched : List Nat) (s : RaceState) : RaceState :=
  sched.foldl schedStep s

/-!
## Basic lemmas about the map operations and event filters
-/

theorem lookupK_update_self (k : K) (cv : CacheValue V) (s : CacheSt K V) :
    lookupK k (update k cv s) = some cv := by
  induction s with
  | nil => simp [update, lookupK]
  | cons p t ih =>
      obtain ⟨k', cv'⟩ := p
      by_cases h : k' = k
      · simp [update, lookupK, h]
      · simp [update, lookupK, h, ih]

theorem lookupK_update_ne (k k' : K) (h : k' ≠ k) (cv : CacheValue V) (s : CacheSt K V) :
    lookupK k' (update k cv s) = lookupK k' s := by
  induction s with
  | nil => simp [update, lookupK, Ne.symm h]
  | cons p t ih =>
      obtain ⟨k'', cv''⟩ := p
      by_cases h2 : k'' = k
      · subst h2
        simp [update, lookupK, h, Ne.symm h]
      · by_cases h3 : k'' = k' <;> simp [update, lookupK, h2, h3, h, Ne.symm h, ih]

theorem lookupK_modifyEntry_self (k : K) (f : CacheValue V → CacheValue V)
    (s : CacheSt K V) (cv : CacheValue V) (h : lookupK k s = some cv) :
    lookupK k (modifyEntry k f s) = some (f cv) := by
  induction s with
  | nil => simp [lookupK] at h
  | cons p t ih =>
      obtain ⟨k', cv'⟩ := p
      by_cases h2 : k' = k
      · simp [lookupK, h2] at h
        simp [modifyEntry, lookupK, h2, h]
      · simp [lookupK, h2] at h
        simp [modifyEntry, lookupK, h2, ih h]

theorem modifyEntry_keys (k : K) (f : CacheValue V → CacheValue V) (s : CacheSt K V) :
    (modifyEntry k f s).map Prod.fst = s.map Prod.fst := by
  induction s with
  | nil => simp [modifyEntry]
  | cons p t ih =>
      obtain ⟨k', cv'⟩ := p
      by_cases h : k' = k <;> simp [modifyEntry, h, ih]

theorem lookupK_none_of_not_mem (k : K) (s : CacheSt K V)
    (h : k ∉ s.map Prod.fst) : lookupK k s = (none : Option (CacheValue V)) := by
  induction s with
  | nil => simp [lookupK]
  | cons p t ih =>
      obtain ⟨k', cv'⟩ := p
      simp only [List.map_cons, List.mem_cons, not_or] at h
      simp [lookupK, Ne.symm h.1, ih h.2]

theorem lookupK_eraseKey_self (k : K) (s : CacheSt K V) (hnd : nodupKeys s) :
    lookupK k (eraseKey k s) = (none : Option (CacheValue V)) := by
  induction s with
  | nil => simp [eraseKey, lookupK]
  | cons p t ih =>
      obtain ⟨k', cv'⟩ := p
      simp only [nodupKeys, List.map_cons, List.nodup_cons] at hnd
      by_cases h : k' = k
      · subst h
        simp only [eraseKey, if_pos rfl]
        exact lookupK_none_of_not_mem k' t hnd.1
      · simp only [eraseKey, if_neg h, lookupK, if_neg h]
        exact ih hnd.2

theorem savesAt_append (k : K) (a b : List (Event K V)) :
    savesAt k (a ++ b) = savesAt k a ++ savesAt k b := by
  simp [savesAt]

theorem savesAt_dropEvents_ne (k k' : K) (h : k' ≠ k) (cv : CacheValue V) :
    savesAt k (dropEvents k' cv) = [] := by
  unfold dropEvents
  by_cases hd : cv.flags &&& (dirtyBit ||| validBit) = dirtyBit ||| validBit <;>
    simp [hd, savesAt, h]

theorem savesAt_teardown_not_mem (k : K) (s : CacheSt K V)
    (h : k ∉ s.map Prod.fst) : savesAt k (teardownEvents s) = [] := by
  induction s with
  | nil => simp [teardownEvents, savesAt]
  | cons p t ih =>
      obtain ⟨k', cv'⟩ := p
      simp only [List.map_cons, List.mem_cons, not_or] at h
      show savesAt k (dropEvents k' cv' ++ teardownEvents t) = []
      rw [savesAt_append, savesAt_dropEvents_ne k k' (Ne.symm h.1), ih h.2]
      rfl

theorem savesAt_teardown (k : K) (s : CacheSt K V) (cv : CacheValue V)
    (hnd : nodupKeys s) (h : lookupK k s = some cv) :
    savesAt k (teardownEvents s) = savesAt k (dropEvents k cv) := by
  induction s with
  | nil => simp [lookupK] at h
  | cons p t ih =>
      obtain ⟨k', cv'⟩ := p
      simp only [nodupKeys, List.map_cons, List.nodup_cons] at hnd
      by_cases h2 : k' = k
      · subst h2
        have h' : cv' = cv := by simpa [lookupK] using h
        show savesAt k' (dropEvents k' cv' ++ teardownEvents t) = savesAt k' (dropEvents k' cv)
        rw [h', savesAt_append, savesAt_teardown_not_mem k' t hnd.1]
        simp
      · simp only [lookupK, if_neg h2] at h
        show savesAt k (dropEvents k' cv' ++ teardownEvents t) = _
        rw [savesAt_append, savesAt_dropEvents_ne k k' h2, ih hnd.2 h]
        simp

theorem lookupK_update (k0 k : K) (cv : CacheValue V) (s : CacheSt K V) :
    lookupK k0 (update k cv s) = if k0 = k then some cv else lookupK k0 s := by
  by_cases h : k0 = k
  · subst h
    simp [lookupK_update_self]
  · simp [h, lookupK_update_ne k k0 h]

theorem lookupK_modifyEntry (k0 k : K) (f : CacheValue V → CacheValue V)
    (s : CacheSt K V) :
    lookupK k0 (modifyEntry k f s) =
      if k0 = k then (lookupK k s).map f else lookupK k0 s := by
  induction s with
  | nil => by_cases h : k0 = k <;> simp [modifyEntry, lookupK, h]
  | cons p t ih =>
      obtain ⟨k', cv'⟩ := p
      by_cases h : k0 = k
      · subst h
        by_cases h2 : k' = k0 <;> simp [modifyEntry, lookupK, h2, ih]
      · by_cases h2 : k' = k <;> by_cases h3 : k' = k0 <;>
          simp_all [modifyEntry, lookupK]

theorem lookupK_eraseKey_ne (k0 k : K) (h : k0 ≠ k) (s : CacheSt K V) :
    lookupK k0 (eraseKey k s) = lookupK k0 s := by
  induction s with
  | nil => simp [eraseKey]
  | cons p t ih =>
      obtain ⟨k', cv'⟩ := p
      by_cases h2 : k' = k
      · subst h2
        simp [eraseKey, lookupK, Ne.symm h]
      · simp [eraseKey, h2, lookupK, ih]

theorem mem_keys_update (k0 k : K) (cv : CacheValue V) (s : CacheSt K V) :
    k0 ∈ (update k cv s).map Prod.fst → k0 = k ∨ k0 ∈ s.map Prod.fst := by
  induction s with
  | nil => simp [update]
  | cons p t ih =>
      obtain ⟨k', cv'⟩ := p
      by_cases h : k' = k
      · subst h
        simp only [update, eq_self_iff_true, if_true, List.map_cons, List.mem_cons]
        tauto
      · simp only [update, if_neg h, List.map_cons, List.mem_cons]
        intro hm
        rcases hm with hm | hm
        · tauto
        · rcases ih hm with hm2 | hm2 <;> tauto

theorem mem_keys_eraseKey (k0 k : K) (s : CacheSt K V) :
    k0 ∈ (eraseKey k s).map Prod.fst → k0 ∈ s.map Prod.fst := by
  induction s with
  | nil => simp [eraseKey]
  | cons p t ih =>
      obtain ⟨k', cv'⟩ := p
      by_cases h : k' = k
      · subst h
        simp only [eraseKey, eq_self_iff_true, if_true, List.map_cons, List.mem_cons]
        tauto
      · simp only [eraseKey, if_neg h, List.map_cons, List.mem_cons]
        intro hm
        rcases hm with hm | hm
        · tauto
        · exact Or.inr (ih hm)

theorem nodup_update (k : K) (cv : CacheValue V) (s : CacheSt K V)
    (hnd : nodupKeys s) : nodupKeys (update k cv s) := by
  induction s with
  | nil => simp [update, nodupKeys]
  | cons p t ih =>
      obtain ⟨k', cv'⟩ := p
      simp only [nodupKeys, List.map_cons, List.nodup_cons] at hnd
      by_cases h : k' = k
      · subst h
        simp only [update, eq_self_iff_true, if_true, nodupKeys, List.map_cons, List.nodup_cons]
        exact hnd
      · simp only [update, if_neg h, nodupKeys, List.map_cons, List.nodup_cons]
        refine ⟨fun hm => ?_, ih hnd.2⟩
        rcases mem_keys_update k' k cv t hm with h2 | h2
        · exact h h2
        · exact hnd.1 h2

theorem nodup_modifyEntry (k : K) (f : CacheValue V → CacheValue V)
    (s : CacheSt K V) (hnd : nodupKeys s) : nodupKeys (modifyEntry k f s) := by
  unfold nodupKeys
  rw [modifyEntry_keys]
  exact hnd

theorem nodup_eraseKey (k : K) (s : CacheSt K V) (hnd : nodupKeys s) :
    nodupKeys (eraseKey k s) := by
  induction s with
  | nil => simp [eraseKey, nodupKeys]
  | cons p t ih =>
      obtain ⟨k', cv'⟩ := p
      simp only [nodupKeys, List.map_cons, List.nodup_cons] at hnd
      by_cases h : k' = k
      · subst h
        simp only [eraseKey, eq_self_iff_true, if_true]
        exact hnd.2
      · simp only [eraseKey, if_neg h, nodupKeys, List.map_cons, List.nodup_cons]
        exact ⟨fun hm => hnd.1 (mem_keys_eraseKey k' k t hm), ih hnd.2⟩

theorem get_or_default_present_valid (S : SourceModel K V Err) (k : K)
    (s : CacheSt K V) (cv : CacheValue V) (h : lookupK k s = some cv)
    (hv : cv.flags &&& validBit ≠ 0) :
    get_or_default S k s = (cv, s, []) := by
  simp [get_or_default, h, hv]

theorem get_or_default_absent (S : SourceModel K V Err) (k : K)
    (s : CacheSt K V) (h : lookupK k s = none) :
    get_or_default S k s =
      (⟨S.load_or_default k, validBit⟩,
       update k ⟨S.load_or_default k, validBit⟩ s, [.load k]) := by
  simp [get_or_default, h]

end EncryptConfig

namespace EncryptConfig

variable {K V Err : Type} [DecidableEq K]

/-!
## Flag-word arithmetic

Every flag word the model produces stays below 256 (it models a `u8`)
and every atomic update the source performs preserves the `Valid` bit.
These finite facts are checked by exhaustive evaluation.
-/

theorem flagAdd8_valid : ∀ f < 256,
    ((f + readingBit) % 256) &&& validBit = f &&& validBit ∧
      (f + readingBit) % 256 < 256 := by decide

theorem flagOrWriting_valid : ∀ f < 256,
    (f ||| writingBit) &&& validBit = f &&& validBit ∧ f ||| writingBit < 256 := by
  decide

theorem flagSub8_valid : ∀ f < 256,
    ((f + 256 - readingBit) % 256) &&& validBit = f &&& validBit ∧
      (f + 256 - readingBit) % 256 < 256 := by decide

theorem flagAndNotWriting_valid : ∀ f < 256,
    (f &&& notWritingMask) &&& validBit = f &&& validBit ∧
      f &&& notWritingMask < 256 := by decide

theorem flagOrDirty_valid : ∀ f < 256,
    (f ||| dirtyBit) &&& validBit = f &&& validBit ∧ f ||| dirtyBit < 256 := by
  decide

theorem flagOrValid_valid : ∀ f < 256,
    (f ||| validBit) &&& validBit ≠ 0 ∧ f ||| validBit < 256 := by decide

/-!
## The state invariant (claim C10)

`Inv s` says the key set is duplicate-free (it models a `HashMap`) and
every entry's flag word fits in a `u8` and has `Valid` set.
-/

/-- The inductive invariant on cache states. -/
def Inv (s : CacheSt K V) : Prop :=
  nodupKeys s ∧
    ∀ k cv, lookupK k s = some cv → cv.flags &&& validBit ≠ 0 ∧ cv.flags < 256

theorem Inv.nil : Inv ([] : CacheSt K V) := by
  constructor
  · simp [nodupKeys]
  · intro k cv h
    simp [lookupK] at h

theorem inv_update (k : K) (cv : CacheValue V) (s : CacheSt K V)
    (hcv : cv.flags &&& validBit ≠ 0 ∧ cv.flags < 256) (hs : Inv s) :
    Inv (update k cv s) := by
  refine ⟨nodup_update k cv s hs.1, fun k0 cv0 h0 => ?_⟩
  rw [lookupK_update] at h0
  by_cases h : k0 = k
  · rw [if_pos h] at h0
    cases h0
    exact hcv
  · rw [if_neg h] at h0
    exact hs.2 k0 cv0 h0

theorem inv_modifyEntry (k : K) (F : CacheValue V → CacheValue V)
    (hF : ∀ cv : CacheValue V, cv.flags &&& validBit ≠ 0 → cv.flags < 256 →
      (F cv).flags &&& validBit ≠ 0 ∧ (F cv).flags < 256)
    (s : CacheSt K V) (hs : Inv s) : Inv (modifyEntry k F s) := by
  refine ⟨nodup_modifyEntry k F s hs.1, fun k0 cv0 h0 => ?_⟩
  rw [lookupK_modifyEntry] at h0
  by_cases h : k0 = k
  · rw [if_pos h] at h0
    cases hl : lookupK k s with
    | none => rw [hl] at h0; cases h0
    | some cv1 =>
        rw [hl] at h0
        have h0' : some (F cv1) = some cv0 := h0
        cases h0'
        have h1 := hs.2 k cv1 hl
        exact hF cv1 h1.1 h1.2
  · rw [if_neg h] at h0
    exact hs.2 k0 cv0 h0

theorem inv_eraseKey (k : K) (s : CacheSt K V) (hs : Inv s) :
    Inv (eraseKey k s) := by
  refine ⟨nodup_eraseKey k s hs.1, fun k0 cv0 h0 => ?_⟩
  by_cases h : k0 = k
  · subst h
    rw [lookupK_eraseKey_self k0 s hs.1] at h0
    cases h0
  · rw [lookupK_eraseKey_ne k0 k h] at h0
    exact hs.2 k0 cv0 h0

theorem inv_get_or_default (S : SourceModel K V Err) (k : K) (s : CacheSt K V)
    (hs : Inv s) : Inv (get_or_default S k s).2.1 := by
  unfold get_or_default
  cases hl : lookupK k s with
  | none =>
      exact inv_update k _ s (by simp [validBit]) hs
  | some cv =>
      dsimp only
      by_cases hv : cv.flags &&& validBit = 0
      · rw [if_pos hv]
        have h1 := hs.2 k cv hl
        exact inv_update k _ s ((flagOrValid_valid cv.flags h1.2)) hs
      · rw [if_neg hv]
        exact hs

theorem inv_retrieve (S : SourceModel K V Err) (k : K) (s : CacheSt K V)
    (hs : Inv s) : Inv (retrieve S k s).2.1 := by
  have hg := inv_get_or_default S k s hs
  unfold retrieve
  rcases hge : get_or_default S k s with ⟨cv, s1, ev⟩
  rw [hge] at hg
  dsimp only at hg ⊢
  split
  · exact hg
  · split
    · exact inv_modifyEntry k _
        (fun cv h1 h2 => by
          have h3 := flagAdd8_valid cv.flags h2
          exact ⟨by rw [h3.1]; exact h1, h3.2⟩) _ hg
    · exact inv_modifyEntry k _
        (fun cv h1 h2 => by
          have h3 := flagAdd8_valid cv.flags h2
          exact ⟨by rw [h3.1]; exact h1, h3.2⟩) _ hg

theorem inv_retrieve_mut (S : SourceModel K V Err) (k : K) (s : CacheSt K V)
    (hs : Inv s) : Inv (retrieve_mut S k s).2.1 := by
  have hg := inv_get_or_default S k s hs
  unfold retrieve_mut
  rcases hge : get_or_default S k s with ⟨cv, s1, ev⟩
  rw [hge] at hg
  dsimp only at hg ⊢
  split
  · exact hg
  · split
    · exact hg
    · exact inv_modifyEntry k _
        (fun cv h1 h2 => by
          have h3 := flagOrWriting_valid cv.flags h2
          exact ⟨by rw [h3.1]; exact h1, h3.2⟩) _ hg

theorem inv_take (S : SourceModel K V Err) (k : K) (s : CacheSt K V)
    (hs : Inv s) : Inv (take_or_default S k s).2.1 := by
  unfold take_or_default
  cases hl : lookupK k s with
  | none => exact hs
  | some cv =>
      have he := inv_eraseKey k s hs
      dsimp only
      split
      · split
        · exact he
        · exact he
      · exact he

theorem inv_dropRef (k : K) (s : CacheSt K V) (hs : Inv s) :
    Inv (dropRef k s) :=
  inv_modifyEntry k _
    (fun cv h1 h2 => by
      have h3 := flagSub8_valid cv.flags h2
      exact ⟨by rw [h3.1]; exact h1, h3.2⟩) s hs

theorem inv_dropMut (k : K) (s : CacheSt K V) (hs : Inv s) :
    Inv (dropMut k s) :=
  inv_modifyEntry k _
    (fun cv h1 h2 => by
      have h3 := flagAndNotWriting_valid cv.flags h2
      exact ⟨by rw [h3.1]; exact h1, h3.2⟩) s hs

theorem inv_writeThrough (k : K) (v : V) (s : CacheSt K V) (hs : Inv s) :
    Inv (writeThrough k v s) :=
  inv_modifyEntry k _
    (fun cv h1 h2 => by
      have h3 := flagOrDirty_valid cv.flags h2
      exact ⟨by rw [h3.1]; exact h1, h3.2⟩) s hs

theorem inv_saveOp (S : SourceModel K V Err) (k : K) (v : V) (s : CacheSt K V)
    (hs : Inv s) : Inv (saveOp S k v s).2.1 := by
  unfold saveOp
  cases hl : lookupK k s with
  | some cv =>
      exact inv_modifyEntry k _
        (fun cv h1 h2 => by
          have h3 := flagOrDirty_valid cv.flags h2
          exact ⟨by rw [h3.1]; exact h1, h3.2⟩) s hs
  | none =>
      cases hsr : S.saveRes k v with
      | some e => exact hs
      | none => exact inv_dropRef k _ (inv_retrieve S k s hs)

/-- The reachable cache states: the empty cache of a fresh `Config`
(`Config::default`, config.rs lines 131-138), closed under every
operation of the core: `get` / `get_mut` / `take` / `save`
(config.rs lines 153-255), a mutation through a live `CfgMut`
(`DerefMut`, lines 312-321), and the guard releases (`Drop for
CfgRef`, lines 280-288, and `Drop for CfgMut`, lines 323-331). -/
inductive Reach (S : SourceModel K V Err) : CacheSt K V → Prop where
  | init : Reach S []
  | stepGet (k : K) {s : CacheSt K V} :
      Reach S s → Reach S (retrieve S k s).2.1
  | stepGetMut (k : K) {s : CacheSt K V} :
      Reach S s → Reach S (retrieve_mut S k s).2.1
  | stepTake (k : K) {s : CacheSt K V} :
      Reach S s → Reach S (take_or_default S k s).2.1
  | stepSave (k : K) (v : V) {s : CacheSt K V} :
      Reach S s → Reach S (saveOp S k v s).2.1
  | stepWrite (k : K) (v : V) {s : CacheSt K V} :
      Reach S s → Reach S (writeThrough k v s)
  | stepDropRef (k : K) {s : CacheSt K V} :
      Reach S s → Reach S (dropRef k s)
  | stepDropMut (k : K) {s : CacheSt K V} :
      Reach S s → Reach S (dropMut k s)

theorem inv_of_reach (S : SourceModel K V Err) (s : CacheSt K V)
    (hr : Reach S s) : Inv s := by
  induction hr with
  | init => exact Inv.nil
  | stepGet k _ ih => exact inv_retrieve S k _ ih
  | stepGetMut k _ ih => exact inv_retrieve_mut S k _ ih
  | stepTake k _ ih => exact inv_take S k _ ih
  | stepSave k v _ ih => exact inv_saveOp S k v _ ih
  | stepWrite k v _ ih => exact inv_writeThrough k v _ ih
  | stepDropRef k _ ih => exact inv_dropRef k _ ih
  | stepDropMut k _ ih => exact inv_dropMut k _ ih

end EncryptConfig

namespace EncryptConfig

variable {K V Err : Type} [DecidableEq K]

/-!
## Characterisations of the guarded acquisition paths
-/

theorem retrieve_ok (S : SourceModel K V Err) (k : K) (s : CacheSt K V)
    (cv : CacheValue V) (h : lookupK k s = some cv)
    (hv : cv.flags &&& validBit ≠ 0) (hw : cv.flags &&& writingBit = 0)
    (hb : cv.flags < 248) :
    retrieve S k s =
      (.ok cv.inner,
       modifyEntry k (fun c => ⟨c.inner, (c.flags + readingBit) % 256⟩) s, []) := by
  unfold retrieve
  rw [get_or_default_present_valid S k s cv h hv]
  dsimp only
  rw [if_neg (not_not_intro hw), if_neg (not_le.mpr hb)]

theorem retrieve_mut_ok (S : SourceModel K V Err) (k : K) (s : CacheSt K V)
    (cv : CacheValue V) (h : lookupK k s = some cv)
    (hv : cv.flags &&& validBit ≠ 0) (hw : cv.flags &&& writingBit = 0)
    (hr : cv.flags < readingBit) :
    retrieve_mut S k s =
      (.ok cv.inner,
       modifyEntry k (fun c => ⟨c.inner, c.flags ||| writingBit⟩) s, []) := by
  unfold retrieve_mut
  rw [get_or_default_present_valid S k s cv h hv]
  dsimp only
  rw [if_neg (not_not_intro hw), if_neg (not_le.mpr hr)]

theorem modifyEntry_update_self (k : K) (f : CacheValue V → CacheValue V)
    (cv : CacheValue V) (s : CacheSt K V) :
    modifyEntry k f (update k cv s) = update k (f cv) s := by
  induction s with
  | nil => simp [update, modifyEntry]
  | cons p t ih =>
      obtain ⟨k', cv'⟩ := p
      by_cases h : k' = k
      · simp [update, modifyEntry, h]
      · simp [update, modifyEntry, h, ih]

/-!
## Further finite flag-word facts, checked exhaustively
-/

theorem flag_wb_iff : ∀ f < 256, f &&& validBit ≠ 0 →
    (f &&& (dirtyBit ||| validBit) = dirtyBit ||| validBit ↔ f &&& dirtyBit ≠ 0) := by
  decide

theorem flag_or_writing_set : ∀ f < 256, (f ||| writingBit) &&& writingBit ≠ 0 := by
  decide

theorem flag_mut_cycle : ∀ f < 8, f &&& writingBit = 0 → f &&& validBit ≠ 0 →
    ((f ||| writingBit) ||| dirtyBit) &&& notWritingMask = f ||| dirtyBit ∧
    (f ||| dirtyBit) &&& validBit ≠ 0 ∧
    (f ||| dirtyBit) &&& writingBit = 0 ∧
    (f ||| dirtyBit) &&& (dirtyBit ||| validBit) = dirtyBit ||| validBit := by
  decide

theorem flag_mut_release : ∀ f < 8, f &&& writingBit = 0 →
    (f ||| writingBit) &&& notWritingMask = f := by decide

theorem flag_clean_no_wb : ∀ f < 256, f &&& dirtyBit = 0 →
    ¬f &&& (dirtyBit ||| validBit) = dirtyBit ||| validBit := by decide

/-!
## Concrete instances used by the witnesses
-/

/-- A concrete Source capability (`K = Nat` keys, `V = Int` values):
every type loads `0` and `T::save` always succeeds. -/
def natIntSource : SourceModel Nat Int Unit := ⟨fun _ => 0, fun _ _ => none⟩

/-- A concrete Source capability whose `T::save` always fails with the
typed error `()`. -/
def natIntSourceFailing : SourceModel Nat Int Unit := ⟨fun _ => 0, fun _ _ => some ()⟩

end EncryptConfig

namespace EncryptConfig

variable {K V Err : Type} [DecidableEq K]

/-!
## Claim C1
-/

/-- Claim C1, as stated, is false: `take_or_default` removes the entry
and returns its owned value, but the removed `CacheValue` is dropped at
the end of the match arm (config.rs lines 102-111), and `Drop for
CacheValue` (lines 53-61) runs `write_back` whenever `Dirty|Valid` is
set — so `T::save` IS called as part of a take of a dirty entry.
Concretely: from an empty cache, acquire an exclusive guard, mutate the
value to `42`, drop the guard, then `take` — the take returns `42` and
the event log of the take contains a `T::save` call with `42`. -/
theorem c1_counterexample :
    (take_or_default natIntSource 0
        (dropMut 0 (writeThrough 0 42
          (retrieve_mut natIntSource 0 ([] : CacheSt Nat Int)).2.1))).1 = .ok 42 ∧
    savesAt 0 (take_or_default natIntSource 0
        (dropMut 0 (writeThrough 0 42
          (retrieve_mut natIntSource 0 ([] : CacheSt Nat Int)).2.1))).2.2 = [42] := by
  decide

/-- Claim C1 (amended): `Config::take` on a present, valid, non-writing
entry removes the entry from the map and returns its owned value; the
write-back closure (`T::save` on the taken value) runs exactly when the
entry's `Dirty` flag is set — once, as the removed `CacheValue` is
dropped — and is not invoked when the entry is clean. -/
theorem c1_take_flushes_iff_dirty (S : SourceModel K V Err) (k : K)
    (s : CacheSt K V) (cv : CacheValue V) (h : lookupK k s = some cv)
    (hlt : cv.flags < 256) (hv : cv.flags &&& validBit ≠ 0)
    (hw : cv.flags &&& writingBit = 0) :
    take_or_default S k s =
      (.ok cv.inner, eraseKey k s,
        if cv.flags &&& dirtyBit ≠ 0 then [.save k cv.inner] else []) := by
  unfold take_or_default
  rw [h]
  dsimp only
  rw [if_pos hv, if_neg (not_not_intro hw)]
  unfold dropEvents
  by_cases hd : cv.flags &&& dirtyBit ≠ 0
  · rw [if_pos ((flag_wb_iff cv.flags hlt hv).mpr hd), if_pos hd]
  · rw [if_neg (fun hc => hd ((flag_wb_iff cv.flags hlt hv).mp hc)), if_neg hd]

/-- Witness for the amended C1 at the dirty entry `(0, value 42,
flags Valid|Dirty)`. -/
theorem c1_witness :
    take_or_default natIntSource 0 [(0, (⟨42, 3⟩ : CacheValue Int))] =
      (.ok 42, [], [.save 0 42]) := by
  have h := c1_take_flushes_iff_dirty natIntSource 0
    [(0, (⟨42, 3⟩ : CacheValue Int))] ⟨42, 3⟩ rfl (by decide) (by decide) (by decide)
  rw [h]
  decide

/-!
## Claim C2
-/

/-- Claim C2 fails on the code: the checks and the claiming
read-modify-write in `retrieve` / `retrieve_mut` (config.rs lines
362-398) are separate atomic operations, so two threads can interleave
between them.  Schedule `[0, 1, 0, 1]` on an entry with flags `Valid`:
(a) two threads both running `get_mut` both pass the `Writing`/reader
checks before either performs `fetch_or(Writing)`, and both end up
holding exclusive guards (flag word `Writing|Valid = 5`); (b) a reader
and a writer interleave the same way, ending with a shared and an
exclusive guard both outstanding and flag word `13`, i.e. `Writing` set
while the reader count is `1 > 0`.  Both final states are exactly what
the claim says is never observable. -/
theorem c2_mutual_exclusion_race :
    runSched [0, 1, 0, 1] ⟨1, [⟨.wr, .start⟩, ⟨.wr, .start⟩]⟩ =
      ⟨writingBit ||| validBit, [⟨.wr, .holding⟩, ⟨.wr, .holding⟩]⟩ ∧
    runSched [0, 1, 0, 1] ⟨1, [⟨.rd, .start⟩, ⟨.wr, .start⟩]⟩ =
      ⟨13, [⟨.rd, .holding⟩, ⟨.wr, .holding⟩]⟩ ∧
    (13 : Nat) &&& writingBit ≠ 0 ∧ (13 : Nat) / readingBit = 1 := by
  decide

/-!
## Claim C3
-/

/-- Claim C3: mutate through an exclusive guard (`get_mut`, store `v`,
drop the guard), then the next eviction — `take` removing the entry, or
the `Config` teardown — invokes the write-back exactly once, with the
mutated value `v`. -/
theorem c3_dirty_evict_flushes_once (S : SourceModel K V Err) (k : K)
    (s : CacheSt K V) (cv : CacheValue V) (v : V)
    (hnd : nodupKeys s) (h : lookupK k s = some cv)
    (hv : cv.flags &&& validBit ≠ 0) (hw : cv.flags &&& writingBit = 0)
    (hr : cv.flags < readingBit) :
    savesAt k (take_or_default S k
        (dropMut k (writeThrough k v (retrieve_mut S k s).2.1))).2.2 = [v] ∧
    (take_or_default S k
        (dropMut k (writeThrough k v (retrieve_mut S k s).2.1))).1 = .ok v ∧
    savesAt k (teardownEvents
        (dropMut k (writeThrough k v (retrieve_mut S k s).2.1))) = [v] := by
  have hF := flag_mut_cycle cv.flags hr hw hv
  have hrm := retrieve_mut_ok S k s cv h hv hw hr
  have h1 : lookupK k (retrieve_mut S k s).2.1 =
      some ⟨cv.inner, cv.flags ||| writingBit⟩ := by
    rw [hrm]
    exact lookupK_modifyEntry_self k _ s cv h
  have h2 : lookupK k (writeThrough k v (retrieve_mut S k s).2.1) =
      some ⟨v, (cv.flags ||| writingBit) ||| dirtyBit⟩ :=
    lookupK_modifyEntry_self k _ _ _ h1
  have h3 : lookupK k (dropMut k (writeThrough k v (retrieve_mut S k s).2.1)) =
      some ⟨v, cv.flags ||| dirtyBit⟩ := by
    unfold dropMut
    rw [lookupK_modifyEntry_self k _ _ _ h2]
    dsimp only
    rw [hF.1]
  have htake : take_or_default S k
      (dropMut k (writeThrough k v (retrieve_mut S k s).2.1)) =
      (.ok v, eraseKey k (dropMut k (writeThrough k v (retrieve_mut S k s).2.1)),
        [.save k v]) := by
    unfold take_or_default
    rw [h3]
    dsimp only
    rw [if_pos hF.2.1, if_neg (not_not_intro hF.2.2.1)]
    unfold dropEvents
    rw [if_pos hF.2.2.2]
  have hnd3 : nodupKeys (dropMut k (writeThrough k v (retrieve_mut S k s).2.1)) := by
    rw [hrm]
    dsimp only
    unfold dropMut writeThrough nodupKeys
    rw [modifyEntry_keys, modifyEntry_keys, modifyEntry_keys]
    exact hnd
  refine ⟨?_, ?_, ?_⟩
  · rw [htake]
    simp [savesAt]
  · rw [htake]
  · rw [savesAt_teardown k _ _ hnd3 h3]
    unfold dropEvents
    rw [if_pos hF.2.2.2]
    simp [savesAt]

/-- Witness for C3 at the clean valid entry `(0, value 7, flags Valid)`
and mutated value `42`. -/
theorem c3_witness :
    savesAt 0 (take_or_default natIntSource 0
        (dropMut 0 (writeThrough 0 42
          (retrieve_mut natIntSource 0 [(0, (⟨7, 1⟩ : CacheValue Int))]).2.1))).2.2 =
      [42] :=
  (c3_dirty_evict_flushes_once natIntSource 0 [(0, (⟨7, 1⟩ : CacheValue Int))]
    ⟨7, 1⟩ 42 (by decide) rfl (by decide) (by decide) (by decide)).1

end EncryptConfig

namespace EncryptConfig

variable {K V Err : Type} [DecidableEq K]

/-!
## Claim C4
-/

/-- Claim C4: on a present valid entry, acquiring an exclusive guard
(`Config::get_mut` / `retrieve_mut`) panics immediately when `Writing`
is set or the reader count (`flags / 8`, bits 3..7) is positive;
otherwise it sets `Writing` and returns the guard (the model is a total
function, so no acquisition ever blocks).  In particular `get_mut`
while a shared guard is live (reader count > 0) panics. -/
theorem c4_exclusive_acquire_contract (S : SourceModel K V Err) (k : K)
    (s : CacheSt K V) (cv : CacheValue V) (h : lookupK k s = some cv)
    (hv : cv.flags &&& validBit ≠ 0) (hlt : cv.flags < 256) :
    (cv.flags &&& writingBit ≠ 0 → (retrieve_mut S k s).1.isPanic = true) ∧
    (cv.flags / readingBit > 0 → (retrieve_mut S k s).1.isPanic = true) ∧
    (cv.flags &&& writingBit = 0 → cv.flags / readingBit = 0 →
      (retrieve_mut S k s).1 = .ok cv.inner ∧
      lookupK k (retrieve_mut S k s).2.1 =
        some ⟨cv.inner, cv.flags ||| writingBit⟩ ∧
      (cv.flags ||| writingBit) &&& writingBit ≠ 0) := by
  refine ⟨?_, ?_, ?_⟩
  · intro hwr
    unfold retrieve_mut
    rw [get_or_default_present_valid S k s cv h hv]
    dsimp only
    rw [if_pos hwr]
    rfl
  · intro hrd
    have hge : cv.flags ≥ readingBit := by
      simp only [readingBit] at hrd ⊢
      omega
    unfold retrieve_mut
    rw [get_or_default_present_valid S k s cv h hv]
    dsimp only
    by_cases hwr : cv.flags &&& writingBit ≠ 0
    · rw [if_pos hwr]
      rfl
    · rw [if_neg hwr, if_pos hge]
      rfl
  · intro hw0 hr0
    have hr8 : cv.flags < readingBit := by
      simp only [readingBit] at hr0 ⊢
      omega
    rw [retrieve_mut_ok S k s cv h hv hw0 hr8]
    exact ⟨rfl, lookupK_modifyEntry_self k _ s cv h,
      flag_or_writing_set cv.flags hlt⟩

/-- Witness for C4: a live-reader entry (flags `Valid + Reading = 9`,
as left by one `get`) makes `get_mut` panic, and on the quiescent entry
(flags `Valid = 1`) `get_mut` succeeds and sets `Writing`. -/
theorem c4_witness :
    (retrieve_mut natIntSource 0
        [(0, (⟨7, 9⟩ : CacheValue Int))]).1.isPanic = true ∧
    (retrieve_mut natIntSource 0
        [(0, (⟨7, 1⟩ : CacheValue Int))]).1 = .ok 7 :=
  ⟨(c4_exclusive_acquire_contract natIntSource 0 [(0, ⟨7, 9⟩)] ⟨7, 9⟩ rfl
      (by decide) (by decide)).2.1 (by decide),
   ((c4_exclusive_acquire_contract natIntSource 0 [(0, ⟨7, 1⟩)] ⟨7, 1⟩ rfl
      (by decide) (by decide)).2.2 (by decide) (by decide)).1⟩

/-!
## Claim C5
-/

/-- Claim C5: on a present valid entry, acquiring a shared guard
(`Config::get` / `retrieve`) panics immediately when `Writing` is set;
otherwise, with reader count below the bound 31, it increments the
reader count by one and returns the guard; and with the bound already
reached (reader count 31, i.e. previous word ≥ 0b1111_1000) the next
acquisition panics instead of silently succeeding. -/
theorem c5_shared_acquire_contract (S : SourceModel K V Err) (k : K)
    (s : CacheSt K V) (cv : CacheValue V) (h : lookupK k s = some cv)
    (hv : cv.flags &&& validBit ≠ 0) (hlt : cv.flags < 256) :
    (cv.flags &&& writingBit ≠ 0 → (retrieve S k s).1.isPanic = true) ∧
    (cv.flags &&& writingBit = 0 → cv.flags / readingBit < 31 →
      (retrieve S k s).1 = .ok cv.inner ∧
      lookupK k (retrieve S k s).2.1 =
        some ⟨cv.inner, cv.flags + readingBit⟩ ∧
      (cv.flags + readingBit) / readingBit = cv.flags / readingBit + 1) ∧
    (cv.flags / readingBit = 31 → cv.flags &&& writingBit = 0 →
      (retrieve S k s).1.isPanic = true) := by
  refine ⟨?_, ?_, ?_⟩
  · intro hwr
    unfold retrieve
    rw [get_or_default_present_valid S k s cv h hv]
    dsimp only
    rw [if_pos hwr]
    rfl
  · intro hw0 hcnt
    have hb : cv.flags < 248 := by
      simp only [readingBit] at hcnt
      omega
    have hm : (cv.flags + readingBit) % 256 = cv.flags + readingBit := by
      apply Nat.mod_eq_of_lt
      simp only [readingBit]
      omega
    rw [retrieve_ok S k s cv h hv hw0 hb]
    refine ⟨rfl, ?_, ?_⟩
    · rw [lookupK_modifyEntry_self k _ s cv h, hm]
    · simp only [readingBit]
      omega
  · intro hcnt hw0
    have hge : cv.flags ≥ 248 := by
      simp only [readingBit] at hcnt
      omega
    unfold retrieve
    rw [get_or_default_present_valid S k s cv h hv]
    dsimp only
    rw [if_neg (not_not_intro hw0), if_pos hge]
    rfl

/-- Witness for C5: with 31 outstanding readers (flags
`Valid + 31·Reading = 249`) the 32nd `get` panics; with one reader
(flags 9) a further `get` succeeds and moves the count from 1 to 2. -/
theorem c5_witness :
    (retrieve natIntSource 0 [(0, (⟨7, 249⟩ : CacheValue Int))]).1.isPanic = true ∧
    (retrieve natIntSource 0 [(0, (⟨7, 9⟩ : CacheValue Int))]).1 = .ok 7 :=
  ⟨(c5_shared_acquire_contract natIntSource 0 [(0, ⟨7, 249⟩)] ⟨7, 249⟩ rfl
      (by decide) (by decide)).2.2 (by decide) (by decide),
   ((c5_shared_acquire_contract natIntSource 0 [(0, ⟨7, 9⟩)] ⟨7, 9⟩ rfl
      (by decide) (by decide)).2.1 (by decide) (by decide)).1⟩

end EncryptConfig

namespace EncryptConfig

variable {K V Err : Type} [DecidableEq K]

/-!
## Claim C6
-/

/-- Claim C6: acquiring an exclusive guard and dropping it without any
mutable dereference restores the entry exactly (in particular `Dirty`
is unchanged; immutable `Deref` of `CfgMut` performs no flag update at
all, so it contributes no step); and evicting a clean (`Dirty`-clear)
entry — by `take` or by `Config` teardown — never invokes the
write-back closure. -/
theorem c6_no_spurious_write_back (S : SourceModel K V Err) (k : K)
    (s : CacheSt K V) (cv : CacheValue V)
    (hnd : nodupKeys s) (h : lookupK k s = some cv)
    (hv : cv.flags &&& validBit ≠ 0) (hw : cv.flags &&& writingBit = 0)
    (hr : cv.flags < readingBit) :
    lookupK k (dropMut k (retrieve_mut S k s).2.1) = some cv ∧
    (cv.flags &&& dirtyBit = 0 →
      savesAt k (take_or_default S k s).2.2 = [] ∧
      savesAt k (teardownEvents s) = []) := by
  have hlt : cv.flags < 256 := by
    have : readingBit ≤ 256 := by decide
    omega
  constructor
  · rw [retrieve_mut_ok S k s cv h hv hw hr]
    unfold dropMut
    rw [lookupK_modifyEntry_self k _ _ _ (lookupK_modifyEntry_self k _ s cv h)]
    dsimp only
    rw [flag_mut_release cv.flags hr hw]
  · intro hd
    have hwb := flag_clean_no_wb cv.flags hlt hd
    constructor
    · unfold take_or_default
      rw [h]
      dsimp only
      rw [if_pos hv, if_neg (not_not_intro hw)]
      unfold dropEvents
      rw [if_neg hwb]
      rfl
    · rw [savesAt_teardown k s cv hnd h]
      unfold dropEvents
      rw [if_neg hwb]
      rfl

/-- Witness for C6 at the clean valid entry `(0, value 7, flags Valid)`. -/
theorem c6_witness :
    lookupK 0 (dropMut 0
        (retrieve_mut natIntSource 0 [(0, (⟨7, 1⟩ : CacheValue Int))]).2.1) =
      some ⟨7, 1⟩ ∧
    savesAt 0 (take_or_default natIntSource 0
        [(0, (⟨7, 1⟩ : CacheValue Int))]).2.2 = [] :=
  ⟨(c6_no_spurious_write_back natIntSource 0 [(0, ⟨7, 1⟩)] ⟨7, 1⟩
      (by decide) rfl (by decide) (by decide) (by decide)).1,
   ((c6_no_spurious_write_back natIntSource 0 [(0, ⟨7, 1⟩)] ⟨7, 1⟩
      (by decide) rfl (by decide) (by decide) (by decide)).2 (by decide)).1⟩

/-!
## Claim C7
-/

/-- Claim C7: starting with no entry for the type, the first `get`
invokes `T::load_or_default()` once and returns the loaded value; an
immediately repeated `get` returns the same cached value and emits no
further load; and in general `get_or_default` on a present valid entry
returns it as-is — no reload, no state change, no event. -/
theorem c7_repeated_get_loads_once (S : SourceModel K V Err) (k : K)
    (s : CacheSt K V) (h : lookupK k s = none) :
    (retrieve S k s).1 = .ok (S.load_or_default k) ∧
    (retrieve S k s).2.2 = [.load k] ∧
    (retrieve S k (retrieve S k s).2.1).1 = .ok (S.load_or_default k) ∧
    (retrieve S k (retrieve S k s).2.1).2.2 = [] ∧
    (∀ s' cv, lookupK k s' = some cv → cv.flags &&& validBit ≠ 0 →
      get_or_default S k s' = (cv, s', [])) := by
  have hr1 : retrieve S k s =
      (.ok (S.load_or_default k),
       modifyEntry k (fun c => ⟨c.inner, (c.flags + readingBit) % 256⟩)
         (update k ⟨S.load_or_default k, validBit⟩ s), [.load k]) := by
    unfold retrieve
    rw [get_or_default_absent S k s h]
    dsimp only
    rw [if_neg (by decide), if_neg (by decide)]
  have h1 : lookupK k (retrieve S k s).2.1 =
      some ⟨S.load_or_default k, (validBit + readingBit) % 256⟩ := by
    rw [hr1]
    dsimp only
    rw [modifyEntry_update_self, lookupK_update_self]
  have hr2 := retrieve_ok S k (retrieve S k s).2.1
    ⟨S.load_or_default k, (validBit + readingBit) % 256⟩ h1
    (show ((validBit + readingBit) % 256) &&& validBit ≠ 0 by decide)
    (show ((validBit + readingBit) % 256) &&& writingBit = 0 by decide)
    (show ((validBit + readingBit) % 256) < 248 by decide)
  refine ⟨by rw [hr1], by rw [hr1], by rw [hr2], by rw [hr2], ?_⟩
  intro s' cv h' hv'
  exact get_or_default_present_valid S k s' cv h' hv'

/-- Witness for C7 from the empty cache. -/
theorem c7_witness :
    (retrieve natIntSource 0 ([] : CacheSt Nat Int)).1 = .ok 0 ∧
    (retrieve natIntSource 0
        (retrieve natIntSource 0 ([] : CacheSt Nat Int)).2.1).2.2 = [] :=
  ⟨(c7_repeated_get_loads_once natIntSource 0 [] rfl).1,
   (c7_repeated_get_loads_once natIntSource 0 [] rfl).2.2.2.1⟩

end EncryptConfig

namespace EncryptConfig

variable {K V Err : Type} [DecidableEq K]

/-!
## Claim C8
-/

/-- Claim C8: `Config::save(value)` with an existing entry replaces the
stored value, sets `Dirty`, and returns `Ok` without calling `T::save`
(no save event); with no entry it calls `value.save()` — propagating a
failure to the caller as the typed error — and on success materialises
a fresh clean entry (flags exactly `Valid`, value from
`T::load_or_default()`, i.e. via the Source capability). -/
theorem c8_save_contract (S : SourceModel K V Err) (k : K) (v : V)
    (s : CacheSt K V) :
    (∀ cv, lookupK k s = some cv →
      saveOp S k v s =
        (.ok (), modifyEntry k (fun c => ⟨v, c.flags ||| dirtyBit⟩) s, []) ∧
      lookupK k (saveOp S k v s).2.1 = some ⟨v, cv.flags ||| dirtyBit⟩) ∧
    (lookupK k s = none → ∀ e, S.saveRes k v = some e →
      saveOp S k v s = (.error e, s, [.save k v])) ∧
    (lookupK k s = none → S.saveRes k v = none →
      saveOp S k v s =
        (.ok (), update k ⟨S.load_or_default k, validBit⟩ s,
          [.save k v, .load k])) := by
  refine ⟨?_, ?_, ?_⟩
  · intro cv h
    have he : saveOp S k v s =
        (.ok (), modifyEntry k (fun c => ⟨v, c.flags ||| dirtyBit⟩) s, []) := by
      unfold saveOp
      rw [h]
    exact ⟨he, by rw [he]; exact lookupK_modifyEntry_self k _ s cv h⟩
  · intro h e hsr
    unfold saveOp
    rw [h, hsr]
  · intro h hsr
    have hr1 : retrieve S k s =
        (.ok (S.load_or_default k),
         modifyEntry k (fun c => ⟨c.inner, (c.flags + readingBit) % 256⟩)
           (update k ⟨S.load_or_default k, validBit⟩ s), [.load k]) := by
      unfold retrieve
      rw [get_or_default_absent S k s h]
      dsimp only
      rw [if_neg (by decide), if_neg (by decide)]
    unfold saveOp
    rw [h, hsr]
    dsimp only
    rw [hr1]
    dsimp only
    unfold dropRef
    rw [modifyEntry_update_self, modifyEntry_update_self]
    have hf : (((validBit + readingBit) % 256) + 256 - readingBit) % 256 =
        validBit := by decide
    dsimp only
    rw [hf]
    rfl

/-- Witness for C8: all three branches at concrete inputs — entry
present (value replaced, `Dirty` set, no save event), entry absent with
failing `T::save` (typed error returned), entry absent with succeeding
`T::save` (fresh clean entry). -/
theorem c8_witness :
    saveOp natIntSource 0 42 [(0, (⟨7, 1⟩ : CacheValue Int))] =
      (.ok (), [(0, ⟨42, 3⟩)], []) ∧
    saveOp natIntSourceFailing 0 42 ([] : CacheSt Nat Int) =
      (.error (), [], [.save 0 42]) ∧
    saveOp natIntSource 0 42 ([] : CacheSt Nat Int) =
      (.ok (), [(0, ⟨0, 1⟩)], [.save 0 42, .load 0]) := by
  refine ⟨?_, ?_, ?_⟩
  · have h := ((c8_save_contract natIntSource 0 42
      [(0, (⟨7, 1⟩ : CacheValue Int))]).1 ⟨7, 1⟩ rfl).1
    rw [h]
    rfl
  · have h := (c8_save_contract natIntSourceFailing 0 42
      ([] : CacheSt Nat Int)).2.1 rfl () rfl
    rw [h]
  · have h := (c8_save_contract natIntSource 0 42
      ([] : CacheSt Nat Int)).2.2 rfl rfl
    rw [h]
    rfl

/-!
## Claim C9
-/

/-- Claim C9: when an entry for the type exists, `Config::save` never
inspects `Writing` or the reader count: for an entry with ANY flag word
(including `Writing` set or readers outstanding) it returns `Ok` with
no borrow-conflict failure, calls no `T::save` (no event), overwrites
the stored value and ors in `Dirty`. -/
theorem c9_save_ignores_borrow_state (S : SourceModel K V Err) (k : K)
    (v : V) (s : CacheSt K V) (cv : CacheValue V)
    (h : lookupK k s = some cv) :
    (saveOp S k v s).1 = .ok () ∧
    (saveOp S k v s).2.2 = [] ∧
    lookupK k (saveOp S k v s).2.1 = some ⟨v, cv.flags ||| dirtyBit⟩ := by
  have he : saveOp S k v s =
      (.ok (), modifyEntry k (fun c => ⟨v, c.flags ||| dirtyBit⟩) s, []) := by
    unfold saveOp
    rw [h]
  rw [he]
  exact ⟨rfl, rfl, lookupK_modifyEntry_self k _ s cv h⟩

/-- Witness for C9 at an entry whose flags have `Writing` set and one
outstanding reader (`flags = 13`): `save` still succeeds and sets
`Dirty` (`13 ||| 2 = 15`). -/
theorem c9_witness :
    (saveOp natIntSource 0 42 [(0, (⟨7, 13⟩ : CacheValue Int))]).1 = .ok () ∧
    lookupK 0 (saveOp natIntSource 0 42
        [(0, (⟨7, 13⟩ : CacheValue Int))]).2.1 = some ⟨42, 15⟩ :=
  ⟨(c9_save_ignores_borrow_state natIntSource 0 42
      [(0, ⟨7, 13⟩)] ⟨7, 13⟩ rfl).1,
   (c9_save_ignores_borrow_state natIntSource 0 42
      [(0, ⟨7, 13⟩)] ⟨7, 13⟩ rfl).2.2⟩

/-!
## Claim C10
-/

/-- Claim C10: in every reachable cache state (empty initial cache
closed under `get`, `get_mut`, `take`, `save`, guard mutation and guard
drops), every entry present in the map has `Valid` set; hence
`Dirty ⇒ Valid` holds for every entry, and the reload-on-invalid
branch of `get_or_default` is unreachable: on any present entry
`get_or_default` returns it unchanged with no load. -/
theorem c10_valid_never_cleared (S : SourceModel K V Err) (s : CacheSt K V)
    (hr : Reach S s) :
    ∀ k cv, lookupK k s = some cv →
      cv.flags &&& validBit ≠ 0 ∧
      (cv.flags &&& dirtyBit ≠ 0 → cv.flags &&& validBit ≠ 0) ∧
      get_or_default S k s = (cv, s, []) := by
  intro k cv h
  have hi := inv_of_reach S s hr
  have h1 := hi.2 k cv h
  exact ⟨h1.1, fun _ => h1.1, get_or_default_present_valid S k s cv h h1.1⟩

/-- Witness for C10 at the reachable state left by one `get` on the
empty cache (entry `(0, value 0, flags Valid + Reading = 9)`). -/
theorem c10_witness :
    (9 : Nat) &&& validBit ≠ 0 ∧
    ((9 : Nat) &&& dirtyBit ≠ 0 → (9 : Nat) &&& validBit ≠ 0) ∧
    get_or_default natIntSource 0
        (retrieve natIntSource 0 ([] : CacheSt Nat Int)).2.1 =
      (⟨0, 9⟩, (retrieve natIntSource 0 ([] : CacheSt Nat Int)).2.1, []) :=
  c10_valid_never_cleared natIntSource _ (Reach.stepGet 0 Reach.init) 0 ⟨0, 9⟩
    (by decide)

end EncryptConfig
